import Mathlib

/-!
Verification of the data-refresh and aggregation pipeline of the
crypto-dashboard server (final revision of `src/server.js`, lines 1112-1680).

JavaScript values are embedded as follows: numbers are rationals (the data
values are JSON decimals; `x / 0 = 0` in ℚ matches no reachable code path
we reason about), `null`/`undefined` are `Option.none`, plain objects used
as string-keyed dictionaries are association lists in insertion order
(property update keeps the position of an existing key, a new key is
appended, exactly as in JS for non-index keys; every claim proved below is
insensitive to the enumeration order of `Object.entries` because the code
sorts afterwards or the statement is order-free), and `Array.prototype.sort`
is a stable insertion sort on the comparator's induced order.
-/

/-- JS `s.split(c)` for a one-character separator, on the character list of
the string. -/
def splitOnCh (c : Char) : List Char → List (List Char)
  | [] => [[]]
  | x :: xs =>
    let r := splitOnCh c xs
    if x = c then [] :: r
    else
      match r with
      | [] => [[x]]
      | y :: ys => (x :: y) :: ys

/-- JS `s.includes(pat)`: `pat` occurs as a contiguous substring of `s`. -/
def hasSub (s pat : String) : Bool := decide (pat.data <:+: s.data)

/-- JS `s.toUpperCase()` (ASCII, which is all the routes receive). -/
def jsUpper (s : String) : String := ⟨s.data.map Char.toUpper⟩

/-- Association-list lookup with decidable equality on the keys; models
reading a property of a JS object used as a dictionary. -/
def alookup {K α : Type} [DecidableEq K] (k : K) : List (K × α) → Option α
  | [] => none
  | (k', v) :: m => if k' = k then some v else alookup k m

/-- JS property write `obj[k] = f(obj[k])`: an existing key keeps its
position, a new key is appended. -/
def objUpd {K α : Type} [DecidableEq K] (k : K) (f : Option α → α) :
    List (K × α) → List (K × α)
  | [] => [(k, f none)]
  | (k', v) :: m => if k' = k then (k', f (some v)) :: m else (k', v) :: objUpd k f m

/-- The JS grouping idiom `for (b of l) map[key(b)] = step(map[key(b)], b)`,
threading the dictionary through the list from an initial dictionary `m`. -/
def jsGroupFrom {K α β : Type} [DecidableEq K] (keyOf : β → K)
    (step : Option α → β → α) : List (K × α) → List β → List (K × α)
  | m, [] => m
  | m, b :: bs => jsGroupFrom keyOf step (objUpd (keyOf b) (fun o => step o b) m) bs

/-- Grouping starting from the empty dictionary. -/
def jsGroup {K α β : Type} [DecidableEq K] (keyOf : β → K)
    (step : Option α → β → α) (l : List β) : List (K × α) :=
  jsGroupFrom keyOf step [] l

/-- One insertion step of a stable insertion sort: `x` goes in front of the
first element `y` with `le x y`. -/
def jsInsert {α : Type} (le : α → α → Bool) (x : α) : List α → List α
  | [] => [x]
  | y :: ys => if le x y then x :: y :: ys else y :: jsInsert le x ys

/-- Stable sort by the boolean comparator `le`; models JS
`Array.prototype.sort` for a consistent comparator. -/
def jsSort {α : Type} (le : α → α → Bool) : List α → List α
  | [] => []
  | x :: xs => jsInsert le x (jsSort le xs)

/-- Sum the way the code's `reduce((s, i) => s + i.value, 0)` does. -/
def foldSum (l : List ℚ) : ℚ := l.foldl (· + ·) 0

-- ============================================================
-- Data model (src/server.js, lines 1129-1148 of the final revision)
-- ============================================================

/-- One entry of a Coinalyze current open-interest / funding-rate response:
`{ symbol, value }` with `value = none` modelling `null`/`undefined`. -/
structure MetricItem where
  symbol : String
  value : Option ℚ
deriving DecidableEq, Repr

/-- One per-bucket point of a history series: `{ t, c }` (bucket timestamp in
seconds, close value, `none` modelling `null`). -/
structure HPoint where
  t : ℕ
  c : Option ℚ
deriving DecidableEq, Repr

/-- One instrument's history series: `{ symbol, history }`; `history = none`
models a missing (`null`/`undefined`, hence falsy) history field. -/
structure HistItem where
  history : Option (List HPoint)
deriving DecidableEq, Repr

/-- One per-bucket point of a long/short-ratio series: `{ t, r, l, s }`. -/
structure LSPoint where
  t : ℕ
  r : Option ℚ
  l : Option ℚ
  s : Option ℚ
deriving DecidableEq, Repr

/-- One instrument's long/short history series. -/
structure LSItem where
  history : Option (List LSPoint)
deriving DecidableEq, Repr

/-- `COINALYZE_EXCHANGES` (lines 1129-1134): fixed exchange registry. -/
def COINALYZE_EXCHANGES : List (String × String) :=
  [("A", "Binance"), ("6", "Bybit"), ("4", "Huobi"), ("3", "OKX")]

/-- `symbol.split('.')[1]`, with a missing second component stringified to
`"undefined"` as JS does when the value is used as an object key. -/
def symbolCode (s : String) : String :=
  ⟨(splitOnCh '.' s.data).getD 1 "undefined".data⟩

/-- `getExchangeName` (lines 1431-1435): Hyperliquid special case, then the
registry, falling back to the raw code. -/
def getExchangeName (symbol : String) : String :=
  if hasSub symbol "HYPERLIQUID" then "Hyperliquid"
  else
    match alookup (symbolCode symbol) COINALYZE_EXCHANGES with
    | some name => name
    | none => symbolCode symbol

/-- JS truthiness of a numeric-or-null value (`!item.value` skips `null`,
`undefined` and `0`). -/
def truthyV : Option ℚ → Bool
  | none => false
  | some x => decide (x ≠ 0)

/-- The numeric value of an item where the code reads `item.value` after a
null check (`getD 0` is never exercised on those paths). -/
def jsVal (i : MetricItem) : ℚ := i.value.getD 0

/-- The funding-rate sanity filter of `refreshAllData` (lines 1395-1400):
admit a value iff it is non-null and its absolute value is strictly below 1
(values are percentages: 1 means 1%). -/
def frAdmit : Option ℚ → Bool
  | none => false
  | some x => decide (|x| < 1)

/-- The body of the `aggregateOI` accumulation callback:
`(byExchangeMap[e] || 0) + item.value` (line 1444). -/
def oiStep (a : ℚ) (i : MetricItem) : ℚ := a + jsVal i

/-- The body of the `aggregateFR` accumulation callback:
`{sum: sum + item.value, count: count + 1}` (lines 1462-1463). -/
def frStep (a : ℚ × ℕ) (i : MetricItem) : ℚ × ℕ := (a.1 + jsVal i, a.2 + 1)

/-- The body of the `aggregateHistory` accumulation callback:
`byTime[t] += point.c || 0` (line 1482). -/
def histStep (a : ℚ) (p : HPoint) : ℚ := a + p.c.getD 0

/-- The body of the `averageHistory` accumulation callback: the bucket entry
is touched for every point but only a non-null `c` is accumulated
(lines 1497-1501). -/
def avgStep (a : ℚ × ℕ) (p : HPoint) : ℚ × ℕ :=
  match p.c with
  | some x => (a.1 + x, a.2 + 1)
  | none => a

-- ============================================================
-- Aggregation engine (lines 1437-1533)
-- ============================================================

/-- Result shape of `aggregateOI`: `{ total, byExchange }` with `byExchange`
a list of `{ exchange, value }` pairs. -/
structure OIResult where
  total : ℚ
  byExchange : List (String × ℚ)
deriving DecidableEq, Repr

/-- `aggregateOI` (lines 1437-1452): skip falsy values, sum per exchange,
sort descending by value, total = sum over the breakdown. -/
def aggregateOI (data : List MetricItem) : OIResult :=
  let items := data.filter (fun i => truthyV i.value)
  let m := jsGroup (fun i => getExchangeName i.symbol)
    (fun o i => oiStep (o.getD 0) i) items
  let byExchange := jsSort (fun a b => decide (b.2 ≤ a.2)) m
  { total := foldSum (byExchange.map Prod.snd), byExchange := byExchange }

/-- Result shape of `aggregateFR`: `{ average, byExchange }`. -/
structure FRResult where
  average : ℚ
  byExchange : List (String × ℚ)
deriving DecidableEq, Repr

/-- `aggregateFR` (lines 1454-1473): skip null values, per-exchange running
`{sum, count}`, per-exchange mean, overall average = mean of the
per-exchange means (`0` when there are no exchanges). -/
def aggregateFR (data : List MetricItem) : FRResult :=
  let items := data.filter (fun i => i.value ≠ none)
  let m := jsGroup (fun i => getExchangeName i.symbol)
    (fun o i => frStep (o.getD ((0 : ℚ), (0 : ℕ))) i) items
  let byExchange := m.map (fun p =>
    (p.1, if 0 < p.2.2 then p.2.1 / (p.2.2 : ℚ) else 0))
  let average :=
    if 0 < byExchange.length then
      foldSum (byExchange.map Prod.snd) / (byExchange.length : ℚ)
    else 0
  { average := average, byExchange := byExchange }

/-- The flattened point stream of the nested `data.forEach(item =>
item.history.forEach(point => ...))` loops (a falsy `history` is skipped). -/
def flattenHist (data : List HistItem) : List HPoint :=
  data.flatMap (fun it => it.history.getD [])

/-- `aggregateHistory` (lines 1475-1489): bucket all points of all
instruments by timestamp, sum `point.c || 0` per bucket, scale timestamps
from seconds to milliseconds, sort ascending by timestamp. -/
def aggregateHistory (data : List HistItem) : List (ℕ × ℚ) :=
  let m := jsGroup (fun p : HPoint => p.t) (fun o p => histStep (o.getD 0) p)
    (flattenHist data)
  jsSort (fun a b => decide (a.1 ≤ b.1)) (m.map (fun p => (1000 * p.1, p.2)))

/-- `averageHistory` (lines 1491-1508): a bucket entry is created for every
point, but only non-null `c` values enter its `{sum, count}`; the bucket
value is the mean (`0` for a bucket whose every value was null); timestamps
scaled to milliseconds, ascending. No magnitude filter is applied. -/
def averageHistory (data : List HistItem) : List (ℕ × ℚ) :=
  let m := jsGroup (fun p : HPoint => p.t)
    (fun o p => avgStep (o.getD ((0 : ℚ), (0 : ℕ))) p)
    (flattenHist data)
  jsSort (fun a b => decide (a.1 ≤ b.1))
    (m.map (fun p => (1000 * p.1, if 0 < p.2.2 then p.2.1 / (p.2.2 : ℚ) else 0)))

-- ============================================================
-- Symbol resolver (lines 1238-1248)
-- ============================================================

/-- One entry of the `/future-markets` listing as `pickOnePerExchange`
consumes it (only `symbol` is read there). -/
structure Market where
  symbol : String
deriving DecidableEq, Repr

/-- `m.symbol.includes('USDT_PERP') || m.symbol.includes('USDT.')`
(line 1242): the identifier indicates a USDT-margined perpetual. -/
def isPreferredSym (s : String) : Bool :=
  hasSub s "USDT_PERP" || hasSub s "USDT."

/-- One iteration of the `pickOnePerExchange` loop (lines 1240-1246):
overwrite the slot for the symbol's exchange code when the slot is falsy
(absent or the empty string) or the candidate is preferred. -/
def pickStep (acc : List (String × String)) (mk : Market) : List (String × String) :=
  let code := symbolCode mk.symbol
  let slotFalsy : Bool :=
    match alookup code acc with
    | none => true
    | some s => decide (s = "")
  if slotFalsy || isPreferredSym mk.symbol then
    objUpd code (fun _ => mk.symbol) acc
  else acc

/-- The `pickOnePerExchange` loop over the whole listing. -/
def pickAux : List (String × String) → List Market → List (String × String)
  | acc, [] => acc
  | acc, mk :: ms => pickAux (pickStep acc mk) ms

/-- `pickOnePerExchange` (lines 1238-1248): `Object.values` of the
per-exchange dictionary built by the loop. -/
def pickOnePerExchange (markets : List Market) : List String :=
  (pickAux [] markets).map Prod.snd

-- ============================================================
-- Trend classifier (lines 1538-1598)
-- ============================================================

/-- Signal 1 of `analyzeTrend` (lines 1545-1553): the funding-rate signal
contributed to `(bullish, bearish)` by the average funding rate, with the
code's thresholds `> 0.001` and `< -0.001` (percentage units). -/
def fundingSignal (avgFR : ℚ) : ℕ × ℕ :=
  if avgFR > 1 / 1000 then (1, 0)
  else if avgFR < -(1 / 1000) then (0, 1)
  else (0, 0)

/-- The classification tail of `analyzeTrend` (lines 1584-1595): derive
`(trend, confidence)` from the two signal counts. -/
def classifyCounts (bullish bearish : ℕ) : String × String :=
  let tc : String × String :=
    if bullish > bearish then
      ("bullish", if bullish ≥ 2 then "moderate" else "low")
    else if bearish > bullish then
      ("bearish", if bearish ≥ 2 then "moderate" else "low")
    else ("neutral", "low")
  if bullish ≥ 3 ∨ bearish ≥ 3 then (tc.1, "high") else tc

-- ============================================================
-- Cache, refresh cycle and the open-interest route
-- (lines 1136-1148, 1302-1426 and 1603-1608)
-- ============================================================

/-- The `cache.data` container (lines 1139-1145); every series starts as
`null` (`none`) and is replaced by an array once stored. -/
structure CacheData where
  btcOI : Option (List MetricItem)
  ethOI : Option (List MetricItem)
  btcFR : Option (List MetricItem)
  ethFR : Option (List MetricItem)
  btcOIHistory : Option (List HistItem)
  ethOIHistory : Option (List HistItem)
  btcFRHistory : Option (List HistItem)
  ethFRHistory : Option (List HistItem)
  btcLSHistory : Option (List LSItem)
  ethLSHistory : Option (List LSItem)
deriving DecidableEq, Repr

/-- The process-wide `cache` object (lines 1136-1148). -/
structure Cache where
  btcSymbols : List String
  ethSymbols : List String
  data : CacheData
  lastUpdate : Option ℕ
  isRefreshing : Bool
deriving DecidableEq, Repr

/-- Hyperliquid per-coin data as `fetchHyperliquidData` returns it
(lines 1274-1289), already rescaled to 8-hour-percentage funding. -/
structure HLCoin where
  openInterest : ℚ
  fundingRate : ℚ
deriving DecidableEq, Repr

/-- A JSON payload at a point where the code spreads or `.filter`s it: an
array of items, or some non-array JSON value (on which `[...x]` and
`x.filter` throw a `TypeError`). -/
inductive Payload (α : Type) where
  | arr (xs : List α)
  | notArr
deriving DecidableEq

/-- The outcome of every upstream call of one refresh cycle.
`fetchHyperliquidData` (lines 1253-1297) catches its own errors and yields
`none` per coin; each Coinalyze request can reject (`Except.error`); the
long/short fetches sit in their own `try`/`catch` (lines 1358-1379) whose
failure leaves the initialized `[]`, so only the resulting lists appear.
History payloads are stored verbatim without spread or `.filter`
(lines 1411-1416), so a non-array history payload cannot throw and they are
typed as plain lists. -/
structure FetchOutcomes where
  hyperBtc : Option HLCoin
  hyperEth : Option HLCoin
  btcOI : Except Unit (Payload MetricItem)
  ethOI : Except Unit (Payload MetricItem)
  btcFR : Except Unit (Payload MetricItem)
  ethFR : Except Unit (Payload MetricItem)
  btcOIHist : Except Unit (List HistItem)
  ethOIHist : Except Unit (List HistItem)
  btcFRHist : Except Unit (List HistItem)
  ethFRHist : Except Unit (List HistItem)
  btcLS : List LSItem
  ethLS : List LSItem

/-- The store phase of `refreshAllData` (lines 1381-1418), mutating the
shared cache field by field in source order. `Except.error c` models the
`TypeError` thrown by spreading or filtering a non-array payload, escaping
with the cache as mutated so far; `Except.ok c` reaches `cache.lastUpdate =
Date.now()` (line 1418). A non-array `btcOI` payload throws at line 1382
while evaluating `[...coinalyzeBtcOI]`, before that first assignment lands,
so the cache is still untouched there; a non-array `ethOI` or `ethFR`
payload throws after earlier fields were already overwritten. The BTC
funding-rate payload arrives here as a plain list: the debug logging loop
`coinalyzeBtcFR.forEach` at line 1328 already threw on a non-array value
back in the fetch phase, so on entry to the store phase it is known to be
an array. -/
def storePhase (c : Cache) (r : FetchOutcomes)
    (pBtcOI pEthOI : Payload MetricItem) (btcFRList : List MetricItem)
    (pEthFR : Payload MetricItem)
    (btcOIH ethOIH btcFRH ethFRH : List HistItem) (now : ℕ) :
    Except Cache Cache :=
  match pBtcOI with
  | .notArr => .error c
  | .arr btcOIList =>
  let c := { c with data := { c.data with btcOI := some btcOIList } }
  match pEthOI with
  | .notArr => .error c
  | .arr ethOIList =>
  let c := { c with data := { c.data with ethOI := some ethOIList } }
  let c := match r.hyperBtc with
    | some h => { c with data := { c.data with
        btcOI := some (btcOIList ++
          [(⟨"BTC.HYPERLIQUID", some h.openInterest⟩ : MetricItem)]) } }
    | none => c
  let c := match r.hyperEth with
    | some h => { c with data := { c.data with
        ethOI := some (ethOIList ++
          [(⟨"ETH.HYPERLIQUID", some h.openInterest⟩ : MetricItem)]) } }
    | none => c
  let btcFRkept := btcFRList.filter (fun i => frAdmit i.value)
  let c := { c with data := { c.data with btcFR := some btcFRkept } }
  match pEthFR with
  | .notArr => .error c
  | .arr ethFRList =>
  let ethFRkept := ethFRList.filter (fun i => frAdmit i.value)
  let c := { c with data := { c.data with ethFR := some ethFRkept } }
  let c := match r.hyperBtc with
    | some h =>
      if |h.fundingRate| < 1 then
        { c with data := { c.data with
            btcFR := some (btcFRkept ++ [(⟨"BTC.HYPERLIQUID", some h.fundingRate⟩ : MetricItem)]) } }
      else c
    | none => c
  let c := match r.hyperEth with
    | some h =>
      if |h.fundingRate| < 1 then
        { c with data := { c.data with
            ethFR := some (ethFRkept ++ [(⟨"ETH.HYPERLIQUID", some h.fundingRate⟩ : MetricItem)]) } }
      else c
    | none => c
  let c := { c with data := { c.data with
      btcOIHistory := some btcOIH, ethOIHistory := some ethOIH,
      btcFRHistory := some btcFRH, ethFRHistory := some ethFRH,
      btcLSHistory := some r.btcLS, ethLSHistory := some r.ethLS } }
  .ok { c with lastUpdate := some now }

/-- `refreshAllData` (lines 1302-1426): skip when a refresh is in flight,
set the flag, run every upstream fetch, then the store phase; the `catch`
keeps whatever state the body reached and the `finally` clears the flag.
Right after the current-data `Promise.all` resolves, the debug logging loop
`coinalyzeBtcFR.forEach` at line 1328 iterates the BTC funding-rate
payload: on a non-array JSON value (no `.forEach`) it throws a `TypeError`
there, in the fetch phase, before the first cache mutation at line 1382 —
so that failure, like every request rejection, leaves the cache untouched. -/
def refreshAllData (c : Cache) (r : FetchOutcomes) (now : ℕ) : Cache :=
  if c.isRefreshing then c
  else
    let c0 : Cache := { c with isRefreshing := true }
    let res : Except Cache Cache :=
      match r.btcOI, r.ethOI, r.btcFR, r.ethFR with
      | .ok p1, .ok p2, .ok p3, .ok p4 =>
        match p3 with
        | .notArr => .error c0
        | .arr btcFRList =>
          match r.btcOIHist, r.ethOIHist with
          | .ok h1, .ok h2 =>
            match r.btcFRHist, r.ethFRHist with
            | .ok h3, .ok h4 => storePhase c0 r p1 p2 btcFRList p4 h1 h2 h3 h4 now
            | _, _ => .error c0
          | _, _ => .error c0
      | _, _, _, _ => .error c0
    match res with
    | .ok c1 => { c1 with isRefreshing := false }
    | .error c1 => { c1 with isRefreshing := false }

/-- True iff some Coinalyze request of the cycle rejected; every such
rejection happens before the first cache mutation of the cycle. (The
line-1328 logging loop, which also precedes every mutation, is a further
pre-store failure point, handled separately.) -/
def fetchFailed (r : FetchOutcomes) : Bool :=
  (match r.btcOI with | .error _ => true | .ok _ => false) ||
  (match r.ethOI with | .error _ => true | .ok _ => false) ||
  (match r.btcFR with | .error _ => true | .ok _ => false) ||
  (match r.ethFR with | .error _ => true | .ok _ => false) ||
  (match r.btcOIHist with | .error _ => true | .ok _ => false) ||
  (match r.ethOIHist with | .error _ => true | .ok _ => false) ||
  (match r.btcFRHist with | .error _ => true | .ok _ => false) ||
  (match r.ethFRHist with | .error _ => true | .ok _ => false)

/-- Response body of `GET /api/open-interest/:coin`. -/
inductive RouteBody where
  | loading
  | payload (coin : String) (result : OIResult) (timestamp : Option ℕ)
deriving DecidableEq

/-- The `GET /api/open-interest/:coin` handler (lines 1603-1608): uppercase
the parameter, read `btcOI` for `"BTC"` and `ethOI` for anything else, 503
while that series is still `null`, otherwise 200 with the aggregate. There
is no invalid-coin branch. -/
def openInterestRoute (coinParam : String) (c : Cache) : ℕ × RouteBody :=
  let coin := jsUpper coinParam
  let d := if coin = "BTC" then c.data.btcOI else c.data.ethOI
  match d with
  | none => (503, .loading)
  | some data => (200, .payload coin (aggregateOI data) c.lastUpdate)

-- ============================================================
-- Derived notions used in the statements, and concrete test data
-- ============================================================

/-- The items of `data` that contribute to exchange `e` in `aggregateOI`:
truthy value and matching exchange name. -/
def oiContrib (data : List MetricItem) (e : String) : List MetricItem :=
  (data.filter (fun i => truthyV i.value)).filter
    (fun i => decide (getExchangeName i.symbol = e))

/-- The items of `data` that contribute to exchange `e` in `aggregateFR`:
non-null value and matching exchange name. -/
def frContrib (data : List MetricItem) (e : String) : List MetricItem :=
  (data.filter (fun i => i.value ≠ none)).filter
    (fun i => decide (getExchangeName i.symbol = e))

/-- The history points of `data` falling in the bucket of timestamp `t`. -/
def histContrib (data : List HistItem) (t : ℕ) : List HPoint :=
  (flattenHist data).filter (fun p => decide (p.t = t))

/-- The spec's end-to-end open-interest example: Binance 100, Bybit 50. -/
def oiExample : List MetricItem :=
  [⟨"BTCUSDT_PERP.A", some 100⟩, ⟨"BTCUSDT.6", some 50⟩]

/-- The spec's funding-rate averaging example: exchange A (Binance) carries
0.01 and 0.02 through two instruments, exchange B (Bybit) carries 0.05. -/
def frExample : List MetricItem :=
  [⟨"BTCUSDT_PERP.A", some (1/100)⟩, ⟨"BTCUSD.A", some (2/100)⟩,
   ⟨"BTCUSDT.6", some (5/100)⟩]

/-- The spec's bucketing example: timestamps `{t1, t1, t2} = {100, 100, 200}`
with values `{1, 2, 3}`, spread over two instruments. -/
def histExample : List HistItem :=
  [⟨some [⟨100, some 1⟩, ⟨200, some 3⟩]⟩, ⟨some [⟨100, some 2⟩]⟩]

/-- A market listing with two Binance (`.A`) candidates, the second a USDT
perpetual, plus one Bybit (`.6`) candidate. -/
def marketsExample : List Market :=
  [⟨"BTCUSD.A"⟩, ⟨"BTCUSDT_PERP.A"⟩, ⟨"BTCUSDT.6"⟩]

/-- A cache as it looks after one successful refresh: every series is an
array (here mostly empty ones) and `lastUpdate` is set. -/
def cachePopulated : Cache :=
  { btcSymbols := [], ethSymbols := [],
    data := { btcOI := some [], ethOI := some [⟨"ETHUSDT.6", some 5⟩],
              btcFR := some [], ethFR := some [],
              btcOIHistory := some [], ethOIHistory := some [],
              btcFRHistory := some [], ethFRHistory := some [],
              btcLSHistory := some [], ethLSHistory := some [] },
    lastUpdate := some 1, isRefreshing := false }

/-- Fetch outcomes in which every request resolved with an array payload
except the ETH funding rate, which is a non-array JSON value: the store
phase throws at line 1398 (`coinalyzeEthFR.filter`) after the
open-interest fields and the BTC funding rate were already overwritten. -/
def outcomesEthFRNotArr : FetchOutcomes :=
  { hyperBtc := none, hyperEth := none,
    btcOI := .ok (.arr [⟨"BTCUSDT_PERP.A", some 100⟩]),
    ethOI := .ok (.arr []),
    btcFR := .ok (.arr []),
    ethFR := .ok .notArr,
    btcOIHist := .ok [], ethOIHist := .ok [],
    btcFRHist := .ok [], ethFRHist := .ok [],
    btcLS := [], ethLS := [] }

/-- Fetch outcomes in which every request resolved but the BTC funding-rate
payload is a non-array JSON value: the debug logging loop at line 1328
throws in the fetch phase, before any cache write. -/
def outcomesBtcFRNotArr : FetchOutcomes :=
  { hyperBtc := none, hyperEth := none,
    btcOI := .ok (.arr [⟨"BTCUSDT_PERP.A", some 100⟩]),
    ethOI := .ok (.arr []),
    btcFR := .ok .notArr,
    ethFR := .ok (.arr []),
    btcOIHist := .ok [], ethOIHist := .ok [],
    btcFRHist := .ok [], ethFRHist := .ok [],
    btcLS := [], ethLS := [] }

/-- Fetch outcomes whose BTC open-interest request rejected after retries:
the cycle fails before any cache mutation. -/
def outcomesFetchErr : FetchOutcomes :=
  { hyperBtc := none, hyperEth := none,
    btcOI := .error (), ethOI := .ok (.arr []),
    btcFR := .ok (.arr []), ethFR := .ok (.arr []),
    btcOIHist := .ok [], ethOIHist := .ok [],
    btcFRHist := .ok [], ethFRHist := .ok [],
    btcLS := [], ethLS := [] }

/-- Fetch outcomes in which every request resolved with an array payload:
the store phase completes and publishes. -/
def outcomesAllOk : FetchOutcomes :=
  { hyperBtc := none, hyperEth := none,
    btcOI := .ok (.arr []), ethOI := .ok (.arr []),
    btcFR := .ok (.arr []), ethFR := .ok (.arr []),
    btcOIHist := .ok [], ethOIHist := .ok [],
    btcFRHist := .ok [], ethFRHist := .ok [],
    btcLS := [], ethLS := [] }

-- ============================================================
-- Infrastructure lemmas
-- ============================================================

theorem alookup_objUpd {K α : Type} [DecidableEq K] (j k : K) (f : Option α → α)
    (m : List (K × α)) :
    alookup j (objUpd k f m) =
      if j = k then some (f (alookup k m)) else alookup j m := by
  induction m with
  | nil =>
    by_cases h : j = k
    · simp [objUpd, alookup, h]
    · have h' : ¬ k = j := fun e => h e.symm
      simp [objUpd, alookup, h, h']
  | cons p m ih =>
    obtain ⟨k', v⟩ := p
    by_cases hk : k' = k
    · subst hk
      by_cases hj : j = k'
      · subst hj; simp [objUpd, alookup]
      · have hj' : ¬ k' = j := fun e => hj e.symm
        simp [objUpd, alookup, hj, hj']
    · by_cases hj : k' = j
      · subst hj
        have hjk : ¬ k' = k := hk
        simp [objUpd, alookup, hk, hjk]
      · have hj' : ¬ j = k' := fun e => hj (Eq.symm e)
        simp [objUpd, alookup, hk, hj, hj', ih]

theorem keys_objUpd {K α : Type} [DecidableEq K] (k : K) (f : Option α → α)
    (m : List (K × α)) :
    (objUpd k f m).map Prod.fst =
      if k ∈ m.map Prod.fst then m.map Prod.fst else m.map Prod.fst ++ [k] := by
  induction m with
  | nil => simp [objUpd]
  | cons p m ih =>
    obtain ⟨k', v⟩ := p
    by_cases hk : k' = k
    · subst hk
      simp [objUpd]
    · have hk' : ¬ k = k' := fun e => hk (Eq.symm e)
      by_cases hmem : k ∈ m.map Prod.fst <;>
        simp [objUpd, hk, hk', hmem, ih]

theorem nodupKeys_objUpd {K α : Type} [DecidableEq K] (k : K) (f : Option α → α)
    (m : List (K × α)) (h : (m.map Prod.fst).Nodup) :
    ((objUpd k f m).map Prod.fst).Nodup := by
  rw [keys_objUpd]
  by_cases hmem : k ∈ m.map Prod.fst
  · simpa [hmem] using h
  · rw [if_neg hmem]
    refine List.Nodup.append h (by simp) ?_
    intro a ha hb
    have : a = k := by simpa using hb
    subst this
    exact hmem ha

theorem mem_objUpd_const {K α : Type} [DecidableEq K] (k : K) (v : α)
    (m : List (K × α)) (p : K × α) (hp : p ∈ objUpd k (fun _ => v) m) :
    p ∈ m ∨ p = (k, v) := by
  induction m with
  | nil => simpa [objUpd] using hp
  | cons q m ih =>
    obtain ⟨k', w⟩ := q
    by_cases hk : k' = k
    · subst hk
      rcases (by simpa [objUpd] using hp : p = (k', v) ∨ p ∈ m) with h | h
      · exact Or.inr h
      · exact Or.inl (List.mem_cons_of_mem _ h)
    · rcases (by simpa [objUpd, hk] using hp :
          p = (k', w) ∨ p ∈ objUpd k (fun _ => v) m) with h | h
      · exact Or.inl (by simp [h])
      · rcases ih h with h' | h'
        · exact Or.inl (List.mem_cons_of_mem _ h')
        · exact Or.inr h'

theorem alookup_eq_none_iff {K α : Type} [DecidableEq K] (k : K) (m : List (K × α)) :
    alookup k m = none ↔ k ∉ m.map Prod.fst := by
  induction m with
  | nil => simp [alookup]
  | cons p m ih =>
    obtain ⟨k', v⟩ := p
    by_cases hk : k' = k
    · subst hk
      simp [alookup]
    · have hk' : ¬ k = k' := fun e => hk (Eq.symm e)
      simp [alookup, hk, hk', ih]

theorem mem_iff_alookup {K α : Type} [DecidableEq K] (k : K) (v : α)
    (m : List (K × α)) (h : (m.map Prod.fst).Nodup) :
    (k, v) ∈ m ↔ alookup k m = some v := by
  induction m with
  | nil => simp [alookup]
  | cons p m ih =>
    obtain ⟨k', w⟩ := p
    have hnd : (m.map Prod.fst).Nodup := (List.nodup_cons.mp h).2
    by_cases hk : k' = k
    · subst hk
      have hk_not : k' ∉ m.map Prod.fst := (List.nodup_cons.mp h).1
      constructor
      · intro hmem
        rcases (by simpa using hmem : (k' = k' ∧ v = w) ∨ (k', v) ∈ m) with ⟨_, hv⟩ | hmem'
        · simp [alookup, hv]
        · exact absurd (by simpa using List.mem_map_of_mem Prod.fst hmem') hk_not
      · intro hl
        have : w = v := by simpa [alookup] using hl
        simp [this]
    · have hk' : ¬ k = k' := fun e => hk (Eq.symm e)
      simp [alookup, hk, hk', ih hnd]

theorem alookup_jsGroupFrom {K α β : Type} [DecidableEq K] (keyOf : β → K)
    (step : Option α → β → α) (l : List β) (m : List (K × α)) (k : K) :
    alookup k (jsGroupFrom keyOf step m l) =
      (l.filter (fun b => decide (keyOf b = k))).foldl
        (fun o b => some (step o b)) (alookup k m) := by
  induction l generalizing m with
  | nil => simp [jsGroupFrom]
  | cons b bs ih =>
    by_cases hb : keyOf b = k
    · subst hb
      simp [jsGroupFrom, ih, List.filter_cons, alookup_objUpd]
    · have hb' : ¬ k = keyOf b := fun e => hb (Eq.symm e)
      simp [jsGroupFrom, ih, List.filter_cons, hb, hb', alookup_objUpd]

theorem optFoldl_some {α β : Type} (combine : α → β → α) (init : α) (l : List β) :
    ∀ a : α, l.foldl (fun o b => some (combine (o.getD init) b)) (some a) =
      some (l.foldl combine a) := by
  induction l with
  | nil => intro a; rfl
  | cons b bs ih => intro a; simpa using ih (combine a b)

theorem alookup_jsGroup {K α β : Type} [DecidableEq K] (keyOf : β → K)
    (combine : α → β → α) (init : α) (l : List β) (k : K) :
    alookup k (jsGroup keyOf (fun o b => combine (o.getD init) b) l) =
      match l.filter (fun b => decide (keyOf b = k)) with
      | [] => none
      | b :: bs => some ((b :: bs).foldl combine init) := by
  rw [jsGroup, alookup_jsGroupFrom]
  cases hf : l.filter (fun b => decide (keyOf b = k)) with
  | nil => rfl
  | cons b bs =>
    simp only [alookup, List.foldl_cons, Option.getD_none]
    exact optFoldl_some combine init bs (combine init b)

theorem nodupKeys_jsGroupFrom {K α β : Type} [DecidableEq K] (keyOf : β → K)
    (step : Option α → β → α) (l : List β) (m : List (K × α))
    (h : (m.map Prod.fst).Nodup) :
    ((jsGroupFrom keyOf step m l).map Prod.fst).Nodup := by
  induction l generalizing m with
  | nil => simpa [jsGroupFrom] using h
  | cons b bs ih => exact ih _ (nodupKeys_objUpd _ _ _ h)

theorem nodupKeys_jsGroup {K α β : Type} [DecidableEq K] (keyOf : β → K)
    (step : Option α → β → α) (l : List β) :
    ((jsGroup keyOf step l).map Prod.fst).Nodup :=
  nodupKeys_jsGroupFrom keyOf step l [] (by simp)

theorem jsInsert_perm {α : Type} (le : α → α → Bool) (x : α) (l : List α) :
    (jsInsert le x l).Perm (x :: l) := by
  induction l with
  | nil => simp [jsInsert]
  | cons y ys ih =>
    by_cases h : le x y = true
    · simp [jsInsert, h]
    · simp only [jsInsert, if_neg h]
      exact (ih.cons y).trans (List.Perm.swap x y ys)

theorem jsSort_perm {α : Type} (le : α → α → Bool) (l : List α) :
    (jsSort le l).Perm l := by
  induction l with
  | nil => simp [jsSort]
  | cons x xs ih => exact (jsInsert_perm le x (jsSort le xs)).trans (ih.cons x)

theorem pairwise_jsInsert {α : Type} (le : α → α → Bool)
    (htrans : ∀ a b c, le a b = true → le b c = true → le a c = true)
    (htotal : ∀ a b, le a b = true ∨ le b a = true)
    (x : α) (l : List α) (hl : l.Pairwise (fun a b => le a b = true)) :
    (jsInsert le x l).Pairwise (fun a b => le a b = true) := by
  induction l with
  | nil => simp [jsInsert]
  | cons y ys ih =>
    rcases List.pairwise_cons.mp hl with ⟨hy, hys⟩
    by_cases h : le x y = true
    · simp only [jsInsert, if_pos h]
      refine List.pairwise_cons.mpr ⟨?_, hl⟩
      intro z hz
      rcases List.mem_cons.mp hz with rfl | hz'
      · exact h
      · exact htrans x y z h (hy z hz')
    · have hyx : le y x = true := (htotal x y).resolve_left h
      simp only [jsInsert, if_neg h]
      refine List.pairwise_cons.mpr ⟨?_, ih hys⟩
      intro z hz
      have hz' := (jsInsert_perm le x ys).mem_iff.mp hz
      rcases List.mem_cons.mp hz' with rfl | hz''
      · exact hyx
      · exact hy z hz''

theorem pairwise_jsSort {α : Type} (le : α → α → Bool)
    (htrans : ∀ a b c, le a b = true → le b c = true → le a c = true)
    (htotal : ∀ a b, le a b = true ∨ le b a = true)
    (l : List α) : (jsSort le l).Pairwise (fun a b => le a b = true) := by
  induction l with
  | nil => simp [jsSort]
  | cons x xs ih => exact pairwise_jsInsert le htrans htotal x (jsSort le xs) ih

theorem foldl_add_map {α : Type} (f : α → ℚ) (l : List α) :
    ∀ x : ℚ, l.foldl (fun a b => a + f b) x = x + (l.map f).sum := by
  induction l with
  | nil => intro x; simp
  | cons b bs ih => intro x; simp [ih (x + f b), add_assoc]

theorem foldl_sumcount {α : Type} (f : α → ℚ) (l : List α) :
    ∀ (x : ℚ) (n : ℕ),
      l.foldl (fun (a : ℚ × ℕ) b => (a.1 + f b, a.2 + 1)) (x, n) =
        (x + (l.map f).sum, n + l.length) := by
  induction l with
  | nil => intro x n; simp
  | cons b bs ih => intro x n; simp [ih (x + f b) (n + 1), add_assoc, Nat.add_comm 1]

theorem foldSum_eq_sum (l : List ℚ) : foldSum l = l.sum := by
  simpa using foldl_add_map id l 0

-- ============================================================
-- Characterization of the aggregation engine
-- ============================================================

theorem alookup_oiGroup (items : List MetricItem) (e : String) :
    alookup e (jsGroup (fun i => getExchangeName i.symbol)
        (fun o i => oiStep (o.getD 0) i) items) =
      (if items.filter (fun i => decide (getExchangeName i.symbol = e)) = [] then none
       else some (((items.filter
          (fun i => decide (getExchangeName i.symbol = e))).map jsVal).sum)) := by
  rw [alookup_jsGroup (fun i : MetricItem => getExchangeName i.symbol) oiStep 0 items e]
  cases hf : items.filter (fun i => decide (getExchangeName i.symbol = e)) with
  | nil => simp
  | cons b bs =>
    have h2 : (b :: bs).foldl oiStep (0 : ℚ) = 0 + ((b :: bs).map jsVal).sum :=
      foldl_add_map jsVal (b :: bs) 0
    simp [h2]

theorem alookup_frGroup (items : List MetricItem) (e : String) :
    alookup e (jsGroup (fun i => getExchangeName i.symbol)
        (fun o i => frStep (o.getD ((0 : ℚ), (0 : ℕ))) i) items) =
      (if items.filter (fun i => decide (getExchangeName i.symbol = e)) = [] then none
       else some (((items.filter
            (fun i => decide (getExchangeName i.symbol = e))).map jsVal).sum,
          (items.filter (fun i => decide (getExchangeName i.symbol = e))).length)) := by
  rw [alookup_jsGroup (fun i : MetricItem => getExchangeName i.symbol) frStep
    ((0 : ℚ), (0 : ℕ)) items e]
  cases hf : items.filter (fun i => decide (getExchangeName i.symbol = e)) with
  | nil => simp
  | cons b bs =>
    have h2 : List.foldl frStep (frStep (0 : ℚ × ℕ) b) bs =
        (jsVal b + (bs.map jsVal).sum, bs.length + 1) := by
      simpa [frStep, Nat.add_comm] using foldl_sumcount jsVal bs (jsVal b) 1
    simp [h2]

theorem alookup_histGroup (pts : List HPoint) (t : ℕ) :
    alookup t (jsGroup (fun p : HPoint => p.t)
        (fun o p => histStep (o.getD 0) p) pts) =
      (if pts.filter (fun p => decide (p.t = t)) = [] then none
       else some (((pts.filter
          (fun p => decide (p.t = t))).map (fun p => p.c.getD 0)).sum)) := by
  rw [alookup_jsGroup (fun p : HPoint => p.t) histStep 0 pts t]
  cases hf : pts.filter (fun p => decide (p.t = t)) with
  | nil => simp
  | cons b bs =>
    have h2 : (b :: bs).foldl histStep (0 : ℚ) =
        0 + ((b :: bs).map (fun p => p.c.getD 0)).sum :=
      foldl_add_map (fun p => p.c.getD 0) (b :: bs) 0
    simp [h2]

theorem mem_aggregateOI_byExchange (data : List MetricItem) (e : String) (v : ℚ) :
    (e, v) ∈ (aggregateOI data).byExchange ↔
      (oiContrib data e ≠ [] ∧ v = ((oiContrib data e).map jsVal).sum) := by
  have hperm := jsSort_perm (fun a b : String × ℚ => decide (b.2 ≤ a.2))
    (jsGroup (fun i => getExchangeName i.symbol) (fun o i => oiStep (o.getD 0) i)
      (data.filter (fun i => truthyV i.value)))
  have hmem : (e, v) ∈ (aggregateOI data).byExchange ↔
      (e, v) ∈ jsGroup (fun i => getExchangeName i.symbol)
        (fun o i => oiStep (o.getD 0) i) (data.filter (fun i => truthyV i.value)) :=
    hperm.mem_iff
  rw [hmem, mem_iff_alookup _ _ _ (nodupKeys_jsGroup _ _ _), alookup_oiGroup]
  rw [oiContrib]
  by_cases hc : (data.filter (fun i => truthyV i.value)).filter
      (fun i => decide (getExchangeName i.symbol = e)) = []
  · simp [hc]
  · simp [hc]
    intro x hx h1 h2
    exact eq_comm

theorem mem_map_mean {K : Type} [DecidableEq K] (m : List (K × (ℚ × ℕ))) (e : K) (v : ℚ) :
    (e, v) ∈ m.map (fun p => (p.1, if 0 < p.2.2 then p.2.1 / (p.2.2 : ℚ) else 0)) ↔
      ∃ c, (e, c) ∈ m ∧ v = (if 0 < c.2 then c.1 / (c.2 : ℚ) else 0) := by
  constructor
  · intro h
    rcases List.mem_map.mp h with ⟨p, hp, hpe⟩
    exact ⟨p.2, by
      obtain ⟨p1, p2⟩ := p
      obtain ⟨h1, h2⟩ := Prod.mk.injEq .. ▸ hpe
      simp only [← h1]
      exact ⟨hp, h2.symm⟩⟩
  · rintro ⟨c, hc, rfl⟩
    exact List.mem_map.mpr ⟨(e, c), hc, rfl⟩

theorem mem_aggregateFR_byExchange (data : List MetricItem) (e : String) (v : ℚ) :
    (e, v) ∈ (aggregateFR data).byExchange ↔
      (frContrib data e ≠ [] ∧
        v = ((frContrib data e).map jsVal).sum / ((frContrib data e).length : ℚ)) := by
  rw [frContrib]
  have h1 : (e, v) ∈ (aggregateFR data).byExchange ↔
      ∃ c, (e, c) ∈ jsGroup (fun i => getExchangeName i.symbol)
          (fun o i => frStep (o.getD ((0 : ℚ), (0 : ℕ))) i)
          (data.filter (fun i => i.value ≠ none)) ∧
        v = (if 0 < c.2 then c.1 / (c.2 : ℚ) else 0) :=
    mem_map_mean _ e v
  rw [h1]
  constructor
  · rintro ⟨c, hc, rfl⟩
    rw [mem_iff_alookup _ _ _ (nodupKeys_jsGroup _ _ _), alookup_frGroup] at hc
    by_cases hemp : (data.filter (fun i => i.value ≠ none)).filter
        (fun i => decide (getExchangeName i.symbol = e)) = []
    · rw [if_pos hemp] at hc; exact absurd hc (by simp)
    · rw [if_neg hemp] at hc
      have hlen : 0 < ((data.filter (fun i => i.value ≠ none)).filter
          (fun i => decide (getExchangeName i.symbol = e))).length :=
        List.length_pos.mpr hemp
      have hc' := (Option.some.inj hc).symm
      subst hc'
      exact ⟨hemp, by rw [if_pos (by exact hlen)]⟩
  · rintro ⟨hne, rfl⟩
    have hlen : 0 < ((data.filter (fun i => i.value ≠ none)).filter
        (fun i => decide (getExchangeName i.symbol = e))).length :=
      List.length_pos.mpr hne
    refine ⟨((((data.filter (fun i => i.value ≠ none)).filter
          (fun i => decide (getExchangeName i.symbol = e))).map jsVal).sum,
        ((data.filter (fun i => i.value ≠ none)).filter
          (fun i => decide (getExchangeName i.symbol = e))).length), ?_, ?_⟩
    · rw [mem_iff_alookup _ _ _ (nodupKeys_jsGroup _ _ _), alookup_frGroup, if_neg hne]
    · rw [if_pos (by exact hlen)]

theorem mem_aggregateHistory (data : List HistItem) (u : ℕ) (v : ℚ) :
    (u, v) ∈ aggregateHistory data ↔
      ∃ t, u = 1000 * t ∧ histContrib data t ≠ [] ∧
        v = ((histContrib data t).map (fun p => p.c.getD 0)).sum := by
  have hm : (u, v) ∈ aggregateHistory data ↔
      (u, v) ∈ (jsGroup (fun p : HPoint => p.t) (fun o p => histStep (o.getD 0) p)
        (flattenHist data)).map (fun p => (1000 * p.1, p.2)) :=
    (jsSort_perm _ _).mem_iff
  rw [hm, List.mem_map]
  constructor
  · rintro ⟨⟨t, c⟩, hp, heq⟩
    rw [Prod.mk.injEq] at heq
    obtain ⟨rfl, rfl⟩ := heq
    rw [mem_iff_alookup _ _ _ (nodupKeys_jsGroup _ _ _), alookup_histGroup] at hp
    by_cases hemp : (flattenHist data).filter (fun p => decide (p.t = t)) = []
    · rw [if_pos hemp] at hp; exact absurd hp (by simp)
    · rw [if_neg hemp] at hp
      refine ⟨t, rfl, ?_, ?_⟩
      · rw [histContrib]; exact hemp
      · rw [histContrib]; exact (Option.some.inj hp).symm
  · rintro ⟨t, rfl, hne, rfl⟩
    rw [histContrib] at hne
    refine ⟨(t, (((flattenHist data).filter
        (fun p => decide (p.t = t))).map (fun p => p.c.getD 0)).sum), ?_, ?_⟩
    · rw [mem_iff_alookup _ _ _ (nodupKeys_jsGroup _ _ _), alookup_histGroup, if_neg hne]
    · rw [histContrib]

theorem aggregateOI_sorted (data : List MetricItem) :
    (aggregateOI data).byExchange.Pairwise (fun a b => b.2 ≤ a.2) := by
  have h := pairwise_jsSort (fun a b : String × ℚ => decide (b.2 ≤ a.2))
    (fun a b c hab hbc => by
      simp only [decide_eq_true_eq] at *
      exact le_trans hbc hab)
    (fun a b => by
      rcases le_total b.2 a.2 with h | h
      · exact Or.inl (by simpa using h)
      · exact Or.inr (by simpa using h))
    (jsGroup (fun i => getExchangeName i.symbol) (fun o i => oiStep (o.getD 0) i)
      (data.filter (fun i => truthyV i.value)))
  exact h.imp (fun hab => by simpa using hab)

theorem aggregateHistory_pairwise_le (data : List HistItem) :
    (aggregateHistory data).Pairwise (fun a b => a.1 ≤ b.1) := by
  have h := pairwise_jsSort (fun a b : ℕ × ℚ => decide (a.1 ≤ b.1))
    (fun a b c hab hbc => by
      simp only [decide_eq_true_eq] at *
      exact le_trans hab hbc)
    (fun a b => by
      rcases le_total a.1 b.1 with h | h
      · exact Or.inl (by simpa using h)
      · exact Or.inr (by simpa using h))
    ((jsGroup (fun p : HPoint => p.t) (fun o p => histStep (o.getD 0) p)
      (flattenHist data)).map (fun p => (1000 * p.1, p.2)))
  exact h.imp (fun hab => by simpa using hab)

theorem aggregateHistory_keys_nodup (data : List HistItem) :
    ((aggregateHistory data).map Prod.fst).Nodup := by
  have hperm : ((aggregateHistory data).map Prod.fst).Perm
      (((jsGroup (fun p : HPoint => p.t) (fun o p => histStep (o.getD 0) p)
        (flattenHist data)).map (fun p => (1000 * p.1, p.2))).map Prod.fst) :=
    (jsSort_perm _ _).map Prod.fst
  rw [hperm.nodup_iff]
  have heq : ((jsGroup (fun p : HPoint => p.t) (fun o p => histStep (o.getD 0) p)
        (flattenHist data)).map (fun p => (1000 * p.1, p.2))).map Prod.fst =
      ((jsGroup (fun p : HPoint => p.t) (fun o p => histStep (o.getD 0) p)
        (flattenHist data)).map Prod.fst).map (fun t => 1000 * t) := by
    simp [Function.comp]
  rw [heq]
  exact (nodupKeys_jsGroup _ _ _).map (fun a b h => by omega)

theorem aggregateHistory_keys_sorted (data : List HistItem) :
    ((aggregateHistory data).map Prod.fst).Pairwise (· < ·) := by
  have hle : ((aggregateHistory data).map Prod.fst).Pairwise (· ≤ ·) :=
    List.Pairwise.map Prod.fst (fun a b h => h) (aggregateHistory_pairwise_le data)
  have hne : ((aggregateHistory data).map Prod.fst).Pairwise (· ≠ ·) :=
    aggregateHistory_keys_nodup data
  exact (hle.and hne).imp (fun h => lt_of_le_of_ne h.1 h.2)

theorem aggregateOI_total (data : List MetricItem) :
    (aggregateOI data).total = ((aggregateOI data).byExchange.map Prod.snd).sum :=
  foldSum_eq_sum _

theorem aggregateFR_average (data : List MetricItem) :
    (aggregateFR data).average =
      ((aggregateFR data).byExchange.map Prod.snd).sum /
        ((aggregateFR data).byExchange.length : ℚ) := by
  have hdef : (aggregateFR data).average =
      if 0 < (aggregateFR data).byExchange.length then
        foldSum ((aggregateFR data).byExchange.map Prod.snd) /
          ((aggregateFR data).byExchange.length : ℚ)
      else 0 := rfl
  rw [hdef]
  by_cases h : 0 < (aggregateFR data).byExchange.length
  · rw [if_pos h, foldSum_eq_sum]
  · rw [if_neg h]
    have hz : (aggregateFR data).byExchange = [] :=
      List.length_eq_zero.mp (Nat.eq_zero_of_not_pos h)
    simp [hz]

-- ============================================================
-- Properties of the symbol resolver
-- ============================================================

theorem pref_ne_empty (s : String) (h : isPreferredSym s = true) : s ≠ "" := by
  intro hs
  subst hs
  exact absurd h (by decide)

theorem pickStep_alookup_ne (acc : List (String × String)) (mk : Market) (c : String)
    (h : symbolCode mk.symbol ≠ c) :
    alookup c (pickStep acc mk) = alookup c acc := by
  simp only [pickStep]
  split
  · rw [alookup_objUpd, if_neg (fun e => h e.symm)]
  · rfl

theorem pickStep_code_inv (acc : List (String × String)) (mk : Market)
    (hinv : ∀ p ∈ acc, symbolCode p.2 = p.1) :
    ∀ p ∈ pickStep acc mk, symbolCode p.2 = p.1 := by
  intro p hp
  simp only [pickStep] at hp
  split at hp
  · rcases mem_objUpd_const _ _ _ _ hp with h | h
    · exact hinv p h
    · rw [h]
  · exact hinv p hp

theorem pickStep_nodupKeys (acc : List (String × String)) (mk : Market)
    (h : (acc.map Prod.fst).Nodup) :
    ((pickStep acc mk).map Prod.fst).Nodup := by
  simp only [pickStep]
  split
  · exact nodupKeys_objUpd _ _ _ h
  · exact h

theorem pickAux_code_inv (ms : List Market) :
    ∀ acc, (∀ p ∈ acc, symbolCode p.2 = p.1) →
      ∀ p ∈ pickAux acc ms, symbolCode p.2 = p.1 := by
  induction ms with
  | nil => intro acc hinv p hp; exact hinv p hp
  | cons mk ms ih =>
    intro acc hinv p hp
    exact ih (pickStep acc mk) (pickStep_code_inv acc mk hinv) p hp

theorem pickAux_nodupKeys (ms : List Market) :
    ∀ acc, (acc.map Prod.fst).Nodup → ((pickAux acc ms).map Prod.fst).Nodup := by
  induction ms with
  | nil => intro acc h; exact h
  | cons mk ms ih =>
    intro acc h
    exact ih (pickStep acc mk) (pickStep_nodupKeys acc mk h)

theorem assoc_filter_snd_len (acc : List (String × String))
    (hinv : ∀ p ∈ acc, symbolCode p.2 = p.1) (hnd : (acc.map Prod.fst).Nodup)
    (c : String) :
    ((acc.map Prod.snd).filter (fun s => decide (symbolCode s = c))).length ≤ 1 := by
  induction acc with
  | nil => simp
  | cons p rest ih =>
    obtain ⟨k, v⟩ := p
    have hk : symbolCode v = k := hinv (k, v) (by simp)
    have hinv' : ∀ q ∈ rest, symbolCode q.2 = q.1 :=
      fun q hq => hinv q (List.mem_cons_of_mem _ hq)
    have hnd' : (rest.map Prod.fst).Nodup := (List.nodup_cons.mp hnd).2
    have hknotin : k ∉ rest.map Prod.fst := (List.nodup_cons.mp hnd).1
    by_cases hc : symbolCode v = c
    · have hrest : (rest.map Prod.snd).filter (fun s => decide (symbolCode s = c)) = [] := by
        rw [List.filter_eq_nil_iff]
        intro s hs
        rcases List.mem_map.mp hs with ⟨q, hq, rfl⟩
        simp only [decide_eq_true_eq]
        intro habs
        apply hknotin
        have hq1 : q.1 = c := by rw [← hinv' q hq, habs]
        have : q.1 ∈ rest.map Prod.fst := List.mem_map_of_mem Prod.fst hq
        rwa [hq1, ← hc, hk] at this
      simp [List.filter_cons, hc, hrest]
    · simpa [List.filter_cons, hc] using ih hinv' hnd'

theorem pickAux_preferred (ms : List Market) :
    ∀ (acc : List (String × String)) (c : String),
      ((∃ mk ∈ ms, symbolCode mk.symbol = c ∧ isPreferredSym mk.symbol = true) ∨
       (∃ s, alookup c acc = some s ∧ isPreferredSym s = true)) →
      ∃ s, alookup c (pickAux acc ms) = some s ∧ isPreferredSym s = true := by
  induction ms with
  | nil =>
    intro acc c h
    rcases h with ⟨mk, hmk, _⟩ | h
    · exact absurd hmk (List.not_mem_nil mk)
    · exact h
  | cons mk ms ih =>
    intro acc c h
    show ∃ s, alookup c (pickAux (pickStep acc mk) ms) = some s ∧ isPreferredSym s = true
    rcases h with ⟨mk', hmk', hcode, hpref⟩ | ⟨s, hs, hsp⟩
    · rcases List.mem_cons.mp hmk' with rfl | hmem
      · apply ih
        right
        refine ⟨mk'.symbol, ?_, hpref⟩
        simp only [pickStep]
        rw [if_pos (by simp [hpref])]
        rw [alookup_objUpd, if_pos hcode.symm]
      · exact ih _ _ (Or.inl ⟨mk', hmem, hcode, hpref⟩)
    · apply ih
      right
      by_cases hcd : symbolCode mk.symbol = c
      · by_cases hp : isPreferredSym mk.symbol = true
        · refine ⟨mk.symbol, ?_, hp⟩
          simp only [pickStep]
          rw [if_pos (by simp [hp])]
          rw [alookup_objUpd, if_pos hcd.symm]
        · refine ⟨s, ?_, hsp⟩
          simp only [pickStep]
          rw [hcd, hs]
          have hcond : (decide (s = "") || isPreferredSym mk.symbol) = false := by
            simp [pref_ne_empty s hsp, hp]
          rw [hcond]
          simp [hs]
      · refine ⟨s, ?_, hsp⟩
        rw [pickStep_alookup_ne acc mk c hcd]
        exact hs

theorem pickAux_first (ms : List Market) :
    ∀ (acc : List (String × String)) (c : String),
      (∀ mk ∈ ms, symbolCode mk.symbol = c → isPreferredSym mk.symbol = false) →
      (∀ mk ∈ ms, mk.symbol ≠ "") →
      (∀ s, alookup c acc = some s → s ≠ "") →
      alookup c (pickAux acc ms) =
        (match alookup c acc with
         | some s => some s
         | none => (ms.find? (fun mk => decide (symbolCode mk.symbol = c))).map
             Market.symbol) := by
  induction ms with
  | nil =>
    intro acc c _ _ _
    cases h : alookup c acc <;> simp [pickAux, h]
  | cons mk ms ih =>
    intro acc c hnp hne hval
    have hnp' : ∀ q ∈ ms, symbolCode q.symbol = c → isPreferredSym q.symbol = false :=
      fun q hq => hnp q (List.mem_cons_of_mem _ hq)
    have hne' : ∀ q ∈ ms, q.symbol ≠ "" := fun q hq => hne q (List.mem_cons_of_mem _ hq)
    show alookup c (pickAux (pickStep acc mk) ms) = _
    by_cases hcd : symbolCode mk.symbol = c
    · have hmkpref : isPreferredSym mk.symbol = false := hnp mk (by simp) hcd
      cases hacc : alookup c acc with
      | some s =>
        have hs : s ≠ "" := hval s hacc
        have hstep : pickStep acc mk = acc := by
          simp only [pickStep]
          rw [hcd, hacc]
          simp [hmkpref, hs]
        rw [hstep, ih acc c hnp' hne' hval, hacc]
      | none =>
        have hstep : pickStep acc mk = objUpd c (fun _ => mk.symbol) acc := by
          simp only [pickStep]
          rw [hcd, hacc]
          simp
        have hlook : alookup c (objUpd c (fun _ => mk.symbol) acc) = some mk.symbol := by
          rw [alookup_objUpd]
          simp
        rw [hstep, ih _ c hnp' hne'
          (fun s hsome => by
            rw [hlook] at hsome
            rw [← Option.some.inj hsome]
            exact hne mk (by simp)), hlook]
        simp [List.find?_cons, hcd]
    · have hstep : alookup c (pickStep acc mk) = alookup c acc :=
        pickStep_alookup_ne acc mk c hcd
      rw [ih _ c hnp' hne' (fun s hsome => hval s (by rwa [hstep] at hsome)), hstep]
      cases hacc : alookup c acc <;> simp [List.find?_cons, hcd, hacc]

-- ============================================================
-- Claims
-- ============================================================

/-- C1 counterexample: the funding-rate validity filter admits the value
0.005, while the claim (threshold `abs(value) < 0.005`, boundary rejected)
demands that 0.005 be rejected. The code's threshold is 1, not 0.005. -/
theorem claim_C1_counterexample :
    frAdmit (some (5/1000)) = true ∧ ¬ (|(5 : ℚ)/1000| < 5/1000) := by
  constructor
  · simp only [frAdmit, decide_eq_true_eq]
    rw [abs_of_pos (by norm_num : (0 : ℚ) < 5/1000)]
    norm_num
  · rw [abs_of_pos (by norm_num : (0 : ℚ) < 5/1000)]
    norm_num

/-- C1 amended: the current-value filter admits a value iff it is non-null
and its absolute value is strictly below 1 (the boundary 1 itself is
rejected), and funding-rate history bucket values are not magnitude-filtered
at all: any non-null close value, of any magnitude, enters the per-bucket
average. -/
theorem claim_C1_amended :
    (∀ v : Option ℚ, frAdmit v = true ↔ ∃ x, v = some x ∧ |x| < 1)
  ∧ frAdmit (some 1) = false
  ∧ (∀ (t : ℕ) (x : ℚ), averageHistory [⟨some [⟨t, some x⟩]⟩] = [(1000 * t, x)]) := by
  refine ⟨?_, ?_, ?_⟩
  · intro v
    cases v with
    | none => simp [frAdmit]
    | some x => simp [frAdmit]
  · simp [frAdmit]
  · intro t x
    simp [averageHistory, flattenHist, jsGroup, jsGroupFrom, objUpd, avgStep,
      jsSort, jsInsert]

/-- C1 amended witness: the boundary value 1 is rejected, 0.9999 admitted,
and the history average of a lone bucket value 7 (far above any sane
funding magnitude) is 7, unfiltered. -/
theorem claim_C1_amended_witness :
    frAdmit (some 1) = false ∧ frAdmit (some (9999/10000)) = true ∧
      averageHistory [⟨some [⟨100, some 7⟩]⟩] = [(100000, 7)] := by
  refine ⟨claim_C1_amended.2.1, ?_, ?_⟩
  · exact (claim_C1_amended.1 (some (9999/10000))).mpr
      ⟨9999/10000, rfl, by rw [abs_of_pos (by norm_num : (0 : ℚ) < 9999/10000)]; norm_num⟩
  · exact claim_C1_amended.2.2 100 7

/-- C2 counterexample: an average funding rate of 0.0005 is strictly above
the claim's bullish threshold 0.0001, yet the classifier emits no signal,
because the code's threshold is 0.001. -/
theorem claim_C2_counterexample :
    fundingSignal (1/2000) = (0, 0) ∧ ((1 : ℚ)/2000 > 1/10000) := by
  constructor
  · rw [fundingSignal, if_neg (by norm_num), if_neg (by norm_num)]
  · norm_num

/-- C2 amended: the funding-rate signal thresholds are plus and minus 0.001
(percentage units), strict: strictly above 0.001 is one bullish signal,
strictly below -0.001 one bearish signal, anything in between none. -/
theorem claim_C2_amended (q : ℚ) :
    (fundingSignal q = (1, 0) ↔ 1/1000 < q)
  ∧ (fundingSignal q = (0, 1) ↔ q < -(1/1000))
  ∧ (fundingSignal q = (0, 0) ↔ (-(1/1000) ≤ q ∧ q ≤ 1/1000)) := by
  unfold fundingSignal
  split_ifs with h1 h2
  · exact ⟨iff_of_true rfl h1,
      iff_of_false (by decide) (by intro h; linarith),
      iff_of_false (by decide) (by intro h; linarith [h.2])⟩
  · exact ⟨iff_of_false (by decide) (by intro h; linarith),
      iff_of_true rfl h2,
      iff_of_false (by decide) (by intro h; linarith [h.1])⟩
  · exact ⟨iff_of_false (by decide) h1,
      iff_of_false (by decide) h2,
      iff_of_true rfl ⟨le_of_not_lt h2, le_of_not_lt h1⟩⟩

/-- C2 amended witness: at 0.002 the signal is bullish, at 0.0005 there is
no signal. -/
theorem claim_C2_amended_witness :
    fundingSignal (2/1000) = (1, 0) ∧ fundingSignal (1/2000) = (0, 0) :=
  ⟨(claim_C2_amended (2/1000)).1.mpr (by norm_num),
   (claim_C2_amended (1/2000)).2.2.mpr (by constructor <;> norm_num)⟩

/-- C9: the trend is bullish exactly when the bullish count exceeds the
bearish count, bearish exactly in the opposite case, neutral exactly on a
tie; confidence is high exactly when either count reaches 3, otherwise
moderate exactly when the winning count is at least 2, otherwise low. -/
theorem claim_C9 (b r : ℕ) :
    ((classifyCounts b r).1 = "bullish" ↔ r < b)
  ∧ ((classifyCounts b r).1 = "bearish" ↔ b < r)
  ∧ ((classifyCounts b r).1 = "neutral" ↔ b = r)
  ∧ ((classifyCounts b r).2 = "high" ↔ (3 ≤ b ∨ 3 ≤ r))
  ∧ (¬(3 ≤ b ∨ 3 ≤ r) →
      (((classifyCounts b r).2 = "moderate") ↔ ((r < b ∧ 2 ≤ b) ∨ (b < r ∧ 2 ≤ r))))
  ∧ (¬(3 ≤ b ∨ 3 ≤ r) → ¬((r < b ∧ 2 ≤ b) ∨ (b < r ∧ 2 ≤ r)) →
      (classifyCounts b r).2 = "low") := by
  unfold classifyCounts
  split_ifs with hbr hb2 h3 hrb hr2 h3 h3 <;>
    refine ⟨?_, ?_, ?_, ?_, ?_, ?_⟩ <;> simp_all <;> omega

/-- C9 witness: concrete classifications at counts (2,0), (0,1), (3,3)
and (1,1). -/
theorem claim_C9_witness :
    classifyCounts 2 0 = ("bullish", "moderate")
  ∧ classifyCounts 0 1 = ("bearish", "low")
  ∧ (classifyCounts 3 3).2 = "high"
  ∧ classifyCounts 1 1 = ("neutral", "low") := by
  have h20 := claim_C9 2 0
  have h01 := claim_C9 0 1
  have h33 := claim_C9 3 3
  have h11 := claim_C9 1 1
  refine ⟨?_, ?_, ?_, ?_⟩
  · have ht := h20.1.mpr (by omega)
    have hc := (h20.2.2.2.2.1 (by omega)).mpr (Or.inl (by omega))
    exact Prod.ext ht hc
  · have ht := h01.2.1.mpr (by omega)
    have hc := h01.2.2.2.2.2 (by omega) (by omega)
    exact Prod.ext ht hc
  · exact h33.2.2.2.1.mpr (by omega)
  · have ht := h11.2.2.1.mpr rfl
    have hc := h11.2.2.2.2.2 (by omega) (by omega)
    exact Prod.ext ht hc

/-- C3: the funding-rate aggregate's breakdown carries, per exchange, the
mean of that exchange's contributing (non-null) instrument values, the
overall average is the mean of those per-exchange means, and on the spec's
example (A: 0.01 and 0.02, B: 0.05) the result is A = 0.015, B = 0.05,
average 0.0325, which differs from the flat mean over raw instruments. -/
theorem claim_C3 (data : List MetricItem) :
    (∀ e v, (e, v) ∈ (aggregateFR data).byExchange ↔
        (frContrib data e ≠ [] ∧
          v = ((frContrib data e).map jsVal).sum / ((frContrib data e).length : ℚ)))
  ∧ (aggregateFR data).average =
      ((aggregateFR data).byExchange.map Prod.snd).sum /
        ((aggregateFR data).byExchange.length : ℚ)
  ∧ aggregateFR frExample =
      { average := 13/400, byExchange := [("Binance", 3/200), ("Bybit", 1/20)] }
  ∧ (aggregateFR frExample).average ≠ (1/100 + 2/100 + 5/100) / 3 := by
  have hconc : aggregateFR frExample =
      { average := 13/400, byExchange := [("Binance", 3/200), ("Bybit", 1/20)] } := by
    simp +decide [aggregateFR, frExample, jsGroup, jsGroupFrom, objUpd, frStep, jsVal,
      foldSum]
    norm_num
  refine ⟨mem_aggregateFR_byExchange data, aggregateFR_average data, hconc, ?_⟩
  rw [hconc]
  norm_num

/-- C3 witness: the spec's funding-rate example instantiated, giving the
double average 0.0325 and the Binance mean 0.015 through the general
per-exchange-mean characterization. -/
theorem claim_C3_witness :
    aggregateFR frExample =
      { average := 13/400, byExchange := [("Binance", 3/200), ("Bybit", 1/20)] }
  ∧ ("Binance", (3 : ℚ)/200) ∈ (aggregateFR frExample).byExchange :=
  ⟨(claim_C3 frExample).2.2.1, by
    rw [(claim_C3 frExample).2.2.1]
    simp⟩

/-- C7: the open-interest aggregate's breakdown carries, per exchange, the
sum of that exchange's contributing (truthy) instrument values, the total
is the sum over the breakdown, the breakdown is sorted descending by value,
and the spec's example (Binance 100, Bybit 50) gives total 150 with the
breakdown in that order. -/
theorem claim_C7 (data : List MetricItem) :
    (∀ e v, (e, v) ∈ (aggregateOI data).byExchange ↔
        (oiContrib data e ≠ [] ∧ v = ((oiContrib data e).map jsVal).sum))
  ∧ (aggregateOI data).total = ((aggregateOI data).byExchange.map Prod.snd).sum
  ∧ (aggregateOI data).byExchange.Pairwise (fun a b => b.2 ≤ a.2)
  ∧ aggregateOI oiExample =
      { total := 150, byExchange := [("Binance", 100), ("Bybit", 50)] } := by
  refine ⟨mem_aggregateOI_byExchange data, aggregateOI_total data,
    aggregateOI_sorted data, ?_⟩
  simp +decide [aggregateOI, oiExample, jsGroup, jsGroupFrom, objUpd, oiStep, jsVal,
    foldSum, jsSort, jsInsert]
  norm_num

/-- C7 witness: the end-to-end example instantiated through the theorem. -/
theorem claim_C7_witness :
    aggregateOI oiExample =
      { total := 150, byExchange := [("Binance", 100), ("Bybit", 50)] }
  ∧ (aggregateOI oiExample).total = 150 := by
  refine ⟨(claim_C7 oiExample).2.2.2, ?_⟩
  rw [(claim_C7 oiExample).2.2.2]

/-- C8: open-interest history bucketing emits timestamps that are strictly
increasing (hence exactly one output point per distinct bucket), each
output point is the sum over that bucket's points of `c || 0` across all
instruments, and the spec's example ({t1,t1,t2} = {100,100,200} with values
{1,2,3}) yields exactly the two ordered points (in milliseconds)
100000 ↦ 3 and 200000 ↦ 3. -/
theorem claim_C8 (data : List HistItem) :
    ((aggregateHistory data).map Prod.fst).Pairwise (· < ·)
  ∧ (∀ u v, (u, v) ∈ aggregateHistory data ↔
      ∃ t, u = 1000 * t ∧ histContrib data t ≠ [] ∧
        v = ((histContrib data t).map (fun p => p.c.getD 0)).sum)
  ∧ aggregateHistory histExample = [(100000, 3), (200000, 3)] := by
  refine ⟨aggregateHistory_keys_sorted data, mem_aggregateHistory data, ?_⟩
  simp +decide [aggregateHistory, histExample, flattenHist, jsGroup, jsGroupFrom,
    objUpd, histStep, jsSort, jsInsert]
  norm_num

/-- C8 witness: the bucketing example instantiated through the theorem,
and the bucket at t = 100 recovered from the general characterization. -/
theorem claim_C8_witness :
    aggregateHistory histExample = [(100000, 3), (200000, 3)]
  ∧ (100000, (3 : ℚ)) ∈ aggregateHistory histExample := by
  refine ⟨(claim_C8 histExample).2.2, ?_⟩
  rw [(claim_C8 histExample).2.2]
  simp

/-- C10: a zero-valued open-interest point is dropped exactly like a null
one: inserting `{symbol, value: 0}` anywhere changes nothing in the
aggregate, and the result is identical to inserting `{symbol, value: null}`
there, so a genuine zero observation is indistinguishable from an
unavailable value. -/
theorem claim_C10 (l1 l2 : List MetricItem) (sym : String) :
    aggregateOI (l1 ++ ⟨sym, some 0⟩ :: l2) = aggregateOI (l1 ++ l2)
  ∧ aggregateOI (l1 ++ ⟨sym, some 0⟩ :: l2) = aggregateOI (l1 ++ ⟨sym, none⟩ :: l2) := by
  have hfil : ∀ v : Option ℚ, truthyV v = false →
      (l1 ++ ⟨sym, v⟩ :: l2).filter (fun i => truthyV i.value) =
        (l1 ++ l2).filter (fun i => truthyV i.value) := by
    intro v hv
    simp [List.filter_append, List.filter_cons, hv]
  have h0 : truthyV (some 0) = false := by simp [truthyV]
  constructor
  · simp only [aggregateOI]
    rw [hfil (some 0) h0]
  · simp only [aggregateOI]
    rw [hfil (some 0) h0, hfil none rfl]

/-- C10 witness: a concrete zero-valued Binance point contributes nothing
and is interchangeable with a null one. -/
theorem claim_C10_witness :
    aggregateOI [⟨"BTCUSDT_PERP.A", some 0⟩, ⟨"BTCUSDT.6", some 50⟩] =
      aggregateOI [⟨"BTCUSDT.6", some 50⟩]
  ∧ aggregateOI [⟨"BTCUSDT_PERP.A", some 0⟩, ⟨"BTCUSDT.6", some 50⟩] =
      aggregateOI [⟨"BTCUSDT_PERP.A", none⟩, ⟨"BTCUSDT.6", some 50⟩] :=
  claim_C10 [] [⟨"BTCUSDT.6", some 50⟩] "BTCUSDT_PERP.A"

theorem refresh_fetch_error_keeps (c : Cache) (r : FetchOutcomes) (now : ℕ)
    (hflag : c.isRefreshing = false) (hfail : fetchFailed r = true) :
    refreshAllData c r now = c := by
  obtain ⟨bs, es, d, lu, ir⟩ := c
  simp only at hflag
  subst hflag
  obtain ⟨hb, he, f1, f2, f3, f4, f5, f6, f7, f8, ls1, ls2⟩ := r
  cases f1 <;> cases f2 <;> rcases f3 with e3 | (l3 | _) <;> cases f4 <;>
    cases f5 <;> cases f6 <;> cases f7 <;> cases f8 <;>
    simp_all [refreshAllData, fetchFailed]

theorem refresh_btcFR_notArr_keeps (c : Cache) (r : FetchOutcomes) (now : ℕ)
    (hflag : c.isRefreshing = false) (hfr : r.btcFR = .ok .notArr) :
    refreshAllData c r now = c := by
  obtain ⟨bs, es, d, lu, ir⟩ := c
  simp only at hflag
  subst hflag
  obtain ⟨hb, he, f1, f2, f3, f4, f5, f6, f7, f8, ls1, ls2⟩ := r
  simp only at hfr
  subst hfr
  cases f1 <;> cases f2 <;> cases f4 <;> cases f5 <;> cases f6 <;>
    cases f7 <;> cases f8 <;> simp [refreshAllData]

theorem refresh_ok_publishes (c : Cache) (r : FetchOutcomes) (now : ℕ)
    (l1 l2 l3 l4 : List MetricItem) (h1 h2 h3 h4 : List HistItem)
    (hflag : c.isRefreshing = false)
    (e1 : r.btcOI = .ok (.arr l1)) (e2 : r.ethOI = .ok (.arr l2))
    (e3 : r.btcFR = .ok (.arr l3)) (e4 : r.ethFR = .ok (.arr l4))
    (e5 : r.btcOIHist = .ok h1) (e6 : r.ethOIHist = .ok h2)
    (e7 : r.btcFRHist = .ok h3) (e8 : r.ethFRHist = .ok h4) :
    (refreshAllData c r now).lastUpdate = some now := by
  obtain ⟨hb, he, f1, f2, f3, f4, f5, f6, f7, f8, ls1, ls2⟩ := r
  simp only at e1 e2 e3 e4 e5 e6 e7 e8
  subst e1 e2 e3 e4 e5 e6 e7 e8
  cases hb <;> cases he <;> simp [refreshAllData, storePhase, hflag]

/-- C4 counterexample: with a populated cache, `GET /api/open-interest/doge`
is answered 200 (serving the ETH series under the label "DOGE"), although
"DOGE" is neither BTC nor ETH and the claim demands status 400. -/
theorem claim_C4_counterexample :
    (openInterestRoute "doge" cachePopulated).1 = 200
  ∧ jsUpper "doge" = "DOGE" ∧ "DOGE" ≠ "BTC" ∧ "DOGE" ≠ "ETH" :=
  ⟨rfl, by decide, by decide, by decide⟩

/-- C4 amended: the route has no invalid-coin branch. Any parameter whose
uppercase form is not "BTC" is served the ETH series; the status is 503
exactly while the selected series is still null (no snapshot ever
published for it), otherwise 200 with the aggregated data — never 400 and
never an error once the series exists, however stale. -/
theorem claim_C4_amended (p : String) (c : Cache) :
    ((openInterestRoute p c).1 = 503 ∨ (openInterestRoute p c).1 = 200)
  ∧ ((openInterestRoute p c).1 = 503 ↔
      (if jsUpper p = "BTC" then c.data.btcOI else c.data.ethOI) = none)
  ∧ (∀ d, (if jsUpper p = "BTC" then c.data.btcOI else c.data.ethOI) = some d →
      openInterestRoute p c =
        (200, .payload (jsUpper p) (aggregateOI d) c.lastUpdate)) := by
  have hroute : openInterestRoute p c =
      match (if jsUpper p = "BTC" then c.data.btcOI else c.data.ethOI) with
      | none => (503, .loading)
      | some data => (200, .payload (jsUpper p) (aggregateOI data) c.lastUpdate) := rfl
  rcases hsel : (if jsUpper p = "BTC" then c.data.btcOI else c.data.ethOI) with _ | d
  · rw [hroute, hsel]
    simp
  · rw [hroute, hsel]
    simp

/-- C4 amended witness: the "doge" request against the populated cache is
served the ETH aggregate with status 200. -/
theorem claim_C4_amended_witness :
    openInterestRoute "doge" cachePopulated =
      (200, .payload "DOGE" (aggregateOI [⟨"ETHUSDT.6", some 5⟩]) (some 1)) :=
  (claim_C4_amended "doge" cachePopulated).2.2 [⟨"ETHUSDT.6", some 5⟩] rfl

/-- C5 counterexample: a refresh cycle in which every request resolved but
the ETH funding-rate payload is a non-array JSON value throws while
storing (at line 1398, `coinalyzeEthFR.filter`), after the open-interest
fields and the BTC funding rate were already overwritten: the resulting
cache mixes the new `btcOI` (one Binance item, where the prior snapshot
had the empty array) with the old funding-rate history and the old
`lastUpdate`, contradicting the claim that every field stays exactly as it
was. (A non-array BTC funding-rate payload, by contrast, already throws at
the line-1328 logging loop in the fetch phase and leaves the cache
untouched — see the amended theorem.) -/
theorem claim_C5_counterexample :
    (refreshAllData cachePopulated outcomesEthFRNotArr 999).data.btcOI =
        some [⟨"BTCUSDT_PERP.A", some 100⟩]
  ∧ cachePopulated.data.btcOI = some []
  ∧ (refreshAllData cachePopulated outcomesEthFRNotArr 999).lastUpdate = some 1
  ∧ (refreshAllData cachePopulated outcomesEthFRNotArr 999).data.btcFRHistory =
      cachePopulated.data.btcFRHistory :=
  ⟨rfl, rfl, rfl, rfl⟩

/-- C5 amended: a refresh cycle that fails before the first cache mutation
— any Coinalyze request rejecting, or the line-1328 debug logging loop
throwing on a non-array BTC funding-rate payload — leaves the cache
exactly as it was; and when all eight requests resolve with array payloads
the store phase runs to completion and publishes, setting `lastUpdate`.
The all-or-nothing guarantee does not extend to a non-array ETH
open-interest or ETH funding-rate payload, which throws mid-store and
leaves a mixed snapshot. -/
theorem claim_C5_amended :
    (∀ (c : Cache) (r : FetchOutcomes) (now : ℕ),
        c.isRefreshing = false → fetchFailed r = true → refreshAllData c r now = c)
  ∧ (∀ (c : Cache) (r : FetchOutcomes) (now : ℕ),
        c.isRefreshing = false → r.btcFR = .ok .notArr → refreshAllData c r now = c)
  ∧ (∀ (c : Cache) (r : FetchOutcomes) (now : ℕ)
        (l1 l2 l3 l4 : List MetricItem) (h1 h2 h3 h4 : List HistItem),
        c.isRefreshing = false →
        r.btcOI = .ok (.arr l1) → r.ethOI = .ok (.arr l2) →
        r.btcFR = .ok (.arr l3) → r.ethFR = .ok (.arr l4) →
        r.btcOIHist = .ok h1 → r.ethOIHist = .ok h2 →
        r.btcFRHist = .ok h3 → r.ethFRHist = .ok h4 →
        (refreshAllData c r now).lastUpdate = some now) :=
  ⟨refresh_fetch_error_keeps, refresh_btcFR_notArr_keeps,
   fun c r now l1 l2 l3 l4 h1 h2 h3 h4 hf e1 e2 e3 e4 e5 e6 e7 e8 =>
     refresh_ok_publishes c r now l1 l2 l3 l4 h1 h2 h3 h4 hf e1 e2 e3 e4 e5 e6 e7 e8⟩

/-- C5 amended witness: a failed BTC open-interest fetch and a non-array
BTC funding-rate payload each leave the populated cache untouched, and an
all-array cycle publishes with the new timestamp. -/
theorem claim_C5_amended_witness :
    refreshAllData cachePopulated outcomesFetchErr 7 = cachePopulated
  ∧ refreshAllData cachePopulated outcomesBtcFRNotArr 7 = cachePopulated
  ∧ (refreshAllData cachePopulated outcomesAllOk 7).lastUpdate = some 7 :=
  ⟨claim_C5_amended.1 cachePopulated outcomesFetchErr 7 rfl rfl,
   claim_C5_amended.2.1 cachePopulated outcomesBtcFRNotArr 7 rfl rfl,
   claim_C5_amended.2.2 cachePopulated outcomesAllOk 7 [] [] [] [] [] [] [] []
     rfl rfl rfl rfl rfl rfl rfl rfl rfl⟩

/-- C6: the symbol resolver keeps at most one instrument per exchange code;
when some candidate of an exchange is a USDT-margined perpetual, the kept
instrument for that exchange is such a candidate; when no candidate of the
exchange is preferred (and symbols are genuine non-empty identifiers), the
first encountered candidate is kept; and the result of a second call on
the same listing is identical. -/
theorem claim_C6 (markets : List Market) (c : String) :
    ((pickOnePerExchange markets).filter (fun s => decide (symbolCode s = c))).length ≤ 1
  ∧ ((∃ mk ∈ markets, symbolCode mk.symbol = c ∧ isPreferredSym mk.symbol = true) →
      ∃ s, alookup c (pickAux [] markets) = some s ∧ isPreferredSym s = true ∧
        s ∈ pickOnePerExchange markets)
  ∧ ((∀ mk ∈ markets, mk.symbol ≠ "") →
      (∀ mk ∈ markets, symbolCode mk.symbol = c → isPreferredSym mk.symbol = false) →
      alookup c (pickAux [] markets) =
        ((markets.find? (fun mk => decide (symbolCode mk.symbol = c))).map
          Market.symbol))
  ∧ pickOnePerExchange markets = pickOnePerExchange markets := by
  refine ⟨?_, ?_, ?_, rfl⟩
  · exact assoc_filter_snd_len (pickAux [] markets)
      (pickAux_code_inv markets [] (by simp))
      (pickAux_nodupKeys markets [] (by simp)) c
  · intro h
    obtain ⟨s, hs, hp⟩ := pickAux_preferred markets [] c (Or.inl h)
    refine ⟨s, hs, hp, ?_⟩
    have hmem : (c, s) ∈ pickAux [] markets :=
      (mem_iff_alookup c s _ (pickAux_nodupKeys markets [] (by simp))).mpr hs
    exact List.mem_map_of_mem Prod.snd hmem
  · intro hne hnp
    exact pickAux_first markets [] c hnp hne (fun s hs => by simp [alookup] at hs)

/-- C6 witness: on the example listing the Binance slot keeps the USDT
perpetual over the earlier plain-USD candidate, and an exchange code with
no candidates resolves to nothing. -/
theorem claim_C6_witness :
    (∃ s, alookup "A" (pickAux [] marketsExample) = some s ∧
      isPreferredSym s = true ∧ s ∈ pickOnePerExchange marketsExample)
  ∧ alookup "9" (pickAux [] marketsExample) =
      ((marketsExample.find? (fun mk => decide (symbolCode mk.symbol = "9"))).map
        Market.symbol) :=
  ⟨(claim_C6 marketsExample "A").2.1 (by decide),
   (claim_C6 marketsExample "9").2.2.1 (by decide) (by decide)⟩
